import Mathlib

/-!
Verification of the core components of the AI e-commerce listing optimizer:
the markdown-ish response parser `parseAnalysisFromText`, the bounded
concurrency `RequestQueue`, the TTL `APICache`, and the network call
wrappers `apiRequest` / `generateAnalysis`.

Strings are modelled as `List Char` internally (JavaScript strings as
sequences of characters), with `String` at the API boundary.  The
JavaScript regular expressions used by the parser all have the shape
`#+\s*LITERAL\s*(capture)` with a lookahead terminator, which is
deterministic (no backtracking is ever needed: the greedy `\s*` runs
stop at the first non-whitespace character because every literal starts
with a non-whitespace character, and the lazy capture stops at the first
position where the lookahead holds, the end of input always qualifying
for the `$` alternative).  The definitions below reproduce exactly that
deterministic scan.
-/

/-- Character class of JavaScript's regex `\s` (which is also the set
trimmed by `String.prototype.trim`): ASCII whitespace, NBSP, the Unicode
space separators, line/paragraph separators and the BOM. -/
def jsWs (c : Char) : Bool :=
  c = ' ' || c = '\t' || c = '\n' || c = '\r' || c = '\x0b' || c = '\x0c' ||
  c = '\u00A0' || c = '\u1680' || ('\u2000' ≤ c && c ≤ '\u200A') ||
  c = '\u2028' || c = '\u2029' || c = '\u202F' || c = '\u205F' ||
  c = '\u3000' || c = '\uFEFF'

/-- JavaScript `String.prototype.trim`: drop `jsWs` characters from both
ends. -/
def trimL (l : List Char) : List Char :=
  ((l.dropWhile jsWs).reverse.dropWhile jsWs).reverse

/-- Attempt to match the regex fragment `#{hashes}\s*LIT\s*` at the start
of `s`.  On success, return the suffix of `s` where the capture group of
the source regexes begins (i.e. after the greedy trailing `\s*`). -/
def matchHeaderAt (hashes : Nat) (lit : List Char) (s : List Char) :
    Option (List Char) :=
  if s.take hashes = List.replicate hashes '#' then
    let r := (s.drop hashes).dropWhile jsWs
    if lit.isPrefixOf r then
      some ((r.drop lit.length).dropWhile jsWs)
    else none
  else none

/-- Leftmost (unanchored) match of `#{hashes}\s*LIT\s*`, as performed by
JavaScript `String.prototype.match`: try every start position from the
left, return the capture start of the first success. -/
def findHeader (hashes : Nat) (lit : List Char) : List Char → Option (List Char)
  | [] => none
  | c :: t =>
    match matchHeaderAt hashes lit (c :: t) with
    | some r => some r
    | none => findHeader hashes lit t

/-- Lazy capture `([\s\S]*?)` bounded by a lookahead `(?=STOP|$)`:
collect characters until the first suffix where the stop predicate
holds (or the end of the input). -/
def captureUntilP (p : List Char → Bool) : List Char → List Char
  | [] => []
  | c :: t => if p (c :: t) then [] else c :: captureUntilP p t

/-- Lookahead `(?=\n##)` used by the assessment and tags regexes. -/
def stopHH (s : List Char) : Bool :=
  ['\n', '#', '#'].isPrefixOf s

/-- Lookahead `(?=\n##\s*Suggested SEO Tags)` bounding the
recommendations block. -/
def stopRecEnd (s : List Char) : Bool :=
  stopHH s && ("Suggested SEO Tags".toList.isPrefixOf ((s.drop 3).dropWhile jsWs))

/-- Lookahead `(?=\n####\s*Reasoning:)` bounding the suggestion field. -/
def stopReasoning (s : List Char) : Bool :=
  ['\n', '#', '#', '#', '#'].isPrefixOf s &&
    ("Reasoning:".toList.isPrefixOf ((s.drop 5).dropWhile jsWs))

/-- JavaScript `String.prototype.split('\n')`: split at every newline,
keeping empty segments. -/
def splitOnNl : List Char → List (List Char)
  | [] => [[]]
  | c :: t =>
    if c = '\n' then [] :: splitOnNl t
    else
      match splitOnNl t with
      | [] => [[c]]
      | l :: ls => (c :: l) :: ls

/-- JavaScript dash stripping, the regex replace of a single leading dash with the empty string. -/
def stripLeadingDash : List Char → List Char
  | '-' :: t => t
  | l => l

/-- The keyword pipeline of `parseAnalysisFromText` applied to the body
captured by the tags regex: split into lines, strip one leading dash and
trim each line, drop empty lines, truncate each survivor to its first 20
characters. -/
def keywordPipeline (body : List Char) : List String :=
  (((splitOnNl body).map fun kw => trimL (stripLeadingDash kw)).filter
      (fun kw => !kw.isEmpty)).map fun kw => String.mk (kw.take 20)

/-- A parsed recommendation record (source: `interface Recommendation`). -/
structure Recommendation where
  element : String
  suggestion : String
  reasoning : String
deriving DecidableEq

/-- The analysis produced by the parser (source: `interface
ListingAnalysis`; the optional `sources` field is attached outside the
parser, from the `x-sources` response header, and is not part of the
parsing contract). -/
structure ListingAnalysis where
  overall_assessment : String
  recommendations : List Recommendation
  suggested_keywords : List String
deriving DecidableEq

/-- Attempt to match `^###\s*Element:\s*(.*)` at a line start: on
success return the `(.*)` capture (the rest of the line after the greedy
`\s*`, which may cross newlines) and the suffix after the whole match. -/
def elemMatchAt (s : List Char) : Option (List Char × List Char) :=
  match matchHeaderAt 3 "Element:".toList s with
  | none => none
  | some r =>
    let name := r.takeWhile fun c => c ≠ '\n'
    some (name, r.drop name.length)

/-- Advance to the character following the next newline (the next line
start), or to the end of the input. -/
def dropLine (s : List Char) : List Char :=
  ((s.dropWhile fun c => c ≠ '\n').drop 1)

/-- Fuelled scan for `matchAll(/^###\s*Element:\s*(.*)/gm)`: visit the
line starts of the input from the left; at each, try `elemMatchAt`; on a
match record the suffix at the match start, the captured name, and the
suffix after the match, then resume at the next line start after the
match (a match never ends mid-line, so the portion of its line after the
match contains no further line start).  The fuel only needs to dominate
the number of visited line starts, and every step strictly shortens the
suffix, so `length + 1` fuel is always sufficient. -/
def scanElemsF : Nat → List Char → List (List Char × List Char × List Char)
  | 0, _ => []
  | _, [] => []
  | Nat.succ fuel, c :: t =>
    match elemMatchAt (c :: t) with
    | some (name, aft) => (c :: t, name, aft) :: scanElemsF fuel (dropLine aft)
    | none => scanElemsF fuel (dropLine (c :: t))

/-- All matches of `^###\s*Element:\s*(.*)` in the recommendations
block, in order of appearance. -/
def scanElems (s : List Char) : List (List Char × List Char × List Char) :=
  scanElemsF (s.length + 1) s

/-- Pair every element match with its chunk: the text between the end of
its own match and the start of the next match (or the end of the block),
mirroring `startIndex`/`endIndex` in the source. -/
def chunksOf : List (List Char × List Char × List Char) → List (List Char × List Char)
  | [] => []
  | (_, name, aft) :: rest =>
    let chunk :=
      match rest with
      | [] => aft
      | (st2, _, _) :: _ => aft.take (aft.length - st2.length)
    (name, chunk) :: chunksOf rest

/-- Build one candidate record from an element name capture and its
chunk: `suggestion` from `/####\s*Suggestion:\s*([\s\S]*?)(?=\n####\s*Reasoning:|$)/`,
`reasoning` from `/####\s*Reasoning:\s*([\s\S]*)/`, both trimmed, empty
when the sub-header is absent. -/
def mkCandidate (name chunk : List Char) : Recommendation :=
  { element := String.mk (trimL name)
    suggestion :=
      match findHeader 4 "Suggestion:".toList chunk with
      | none => ""
      | some r => String.mk (trimL (captureUntilP stopReasoning r))
    reasoning :=
      match findHeader 4 "Reasoning:".toList chunk with
      | none => ""
      | some r => String.mk (trimL r) }

/-- The candidate recommendation records of a recommendations block: one
per `### Element:` match, in order of appearance. -/
def recCandidates (recText : List Char) : List Recommendation :=
  (chunksOf (scanElems recText)).map fun nc => mkCandidate nc.1 nc.2

/-- The keep condition of the source's `if (element && (suggestion || reasoning))`:
JavaScript string truthiness is non-emptiness. -/
def keepRec (r : Recommendation) : Bool :=
  r.element != "" && (r.suggestion != "" || r.reasoning != "")

/-- The `forEach` accumulation loop of the source: push each candidate
that passes the keep condition. -/
def recLoop : List Recommendation → List Recommendation → List Recommendation
  | acc, [] => acc
  | acc, r :: rs => recLoop (if keepRec r then acc ++ [r] else acc) rs

/-- The parser (source: `parseAnalysisFromText` in `index.tsx` and in
the optimized main module).  Total by construction: missing sections
leave the corresponding field at its empty default. -/
def parseAnalysisFromText (text : String) : ListingAnalysis :=
  let l := text.toList
  { overall_assessment :=
      match findHeader 2 "Overall Assessment".toList l with
      | none => ""
      | some rest => String.mk (trimL (captureUntilP stopHH rest))
    suggested_keywords :=
      match findHeader 2 "Suggested SEO Tags (13)".toList l with
      | none => []
      | some rest => keywordPipeline (captureUntilP stopHH rest)
    recommendations :=
      match findHeader 2 "Actionable Recommendations".toList l with
      | none => []
      | some rest => recLoop [] (recCandidates (captureUntilP stopRecEnd rest)) }

/-!
The request coordinator (source: `class RequestQueue`).  The JavaScript
runtime is single threaded: `add` synchronously pushes the wrapped task
and runs `processQueue`, which dispatches at most one pending task when
capacity allows; when a dispatched task settles, its `finally` block
decrements the active counter and runs `processQueue` again.  Tasks are
identified by their submission index; the outcome of a task is an
`Except`, success or failure.  The `started` and `settled` fields are
observation logs (ghost instrumentation) recording the order in which
tasks began and the outcomes delivered to the callers; `active.length`
is the source's `activeRequests` counter, the list remembering which
dispatched tasks have not yet settled.
-/

/-- Outcome of one queued task: the value its promise fulfills with, or
the reason it rejects with. -/
abbrev TaskResult := Except String String

deriving instance DecidableEq for Except

/-- The wrapper `add` pushes onto the queue: run the task, `resolve`
with its value or `reject` with its reason — a pure passthrough. -/
def runTask (r : TaskResult) : TaskResult :=
  match r with
  | Except.ok v => Except.ok v
  | Except.error e => Except.error e

/-- State of the request coordinator. -/
structure RequestQueue where
  queue : List Nat
  active : List Nat
  started : List Nat
  settled : List (Nat × TaskResult)
  nextId : Nat
deriving DecidableEq

/-- The fixed concurrency ceiling (source: `maxConcurrent = 3`). -/
def maxConcurrent : Nat := 3

/-- Source `processQueue`: return unless there is spare capacity and a
pending task; otherwise shift the queue head and start it. -/
def processQueue (s : RequestQueue) : RequestQueue :=
  if maxConcurrent ≤ s.active.length then s
  else
    match s.queue with
    | [] => s
    | t :: rest =>
      { s with
        queue := rest
        active := s.active ++ [t]
        started := s.started ++ [t] }

/-- Source `add`: push the wrapped task (fresh submission index) onto
the queue, then run `processQueue` once. -/
def addTask (s : RequestQueue) : RequestQueue :=
  processQueue { s with queue := s.queue ++ [s.nextId], nextId := s.nextId + 1 }

/-- Settlement of an in-flight task with outcome `r`: the wrapper
delivers `runTask r` to the caller, the `finally` block decrements the
active counter, then `processQueue` runs once more. -/
def completeTask (s : RequestQueue) (t : Nat) (r : TaskResult) : RequestQueue :=
  processQueue
    { s with
      active := s.active.erase t
      settled := s.settled ++ [(t, runTask r)] }

/-- The empty coordinator. -/
def initQueue : RequestQueue := ⟨[], [], [], [], 0⟩

/-- One event-loop step of the coordinator: a caller submits a task, or
an in-flight task settles (with either outcome). -/
inductive QStep : RequestQueue → RequestQueue → Prop
  | add (s : RequestQueue) : QStep s (addTask s)
  | complete (s : RequestQueue) (t : Nat) (r : TaskResult) (h : t ∈ s.active) :
      QStep s (completeTask s t r)

/-- States reachable from the empty coordinator by any sequence of
submissions and completions. -/
inductive QReachable : RequestQueue → Prop
  | init : QReachable initQueue
  | step {s s' : RequestQueue} : QReachable s → QStep s s' → QReachable s'

/-- The coordinator state after five consecutive submissions to the
empty queue. -/
def queueAfterFiveAdds : RequestQueue :=
  addTask (addTask (addTask (addTask (addTask initQueue))))

/-!
The TTL cache (source: `class APICache`).  `Date.now()` is passed in
explicitly as `now`.  The backing JavaScript `Map` is modelled as an
association list with unique keys: `set` replaces the value of an
existing key in place, otherwise appends; `get` reads the first match;
`delete` removes the key's entry.
-/

/-- Source `interface CacheEntry<T>`. -/
structure CacheEntry (α : Type) where
  data : α
  timestamp : Nat
  expiry : Nat
deriving DecidableEq

/-- The cache's backing map. -/
abbrev APICache (α : Type) : Type := List (String × CacheEntry α)

/-- JavaScript `Map.prototype.get`. -/
def mapGetEntry {β : Type} (c : List (String × β)) (k : String) : Option β :=
  match c with
  | [] => none
  | (k', v') :: rest => if k' = k then some v' else mapGetEntry rest k

/-- JavaScript `Map.prototype.set`: replace in place, or append. -/
def mapSet {β : Type} (c : List (String × β)) (k : String) (v : β) :
    List (String × β) :=
  match c with
  | [] => [(k, v)]
  | (k', v') :: rest =>
    if k' = k then (k', v) :: rest else (k', v') :: mapSet rest k v

/-- JavaScript `Map.prototype.delete`. -/
def mapDelete {β : Type} (c : List (String × β)) (k : String) :
    List (String × β) :=
  match c with
  | [] => []
  | (k', v') :: rest =>
    if k' = k then rest else (k', v') :: mapDelete rest k

/-- Source `DEFAULT_TTL = 5 * 60 * 1000` (five minutes). -/
def DEFAULT_TTL : Nat := 5 * 60 * 1000

/-- Period of the background `setInterval` sweep (five minutes). -/
def CLEANUP_INTERVAL : Nat := 5 * 60 * 1000

/-- Source `APICache.set`: store the value with `timestamp = now` and
`expiry = now + ttl`. -/
def cacheSet {α : Type} (c : APICache α) (k : String) (v : α) (ttl now : Nat) :
    APICache α :=
  mapSet c k { data := v, timestamp := now, expiry := now + ttl }

/-- Source `APICache.get`: a missing key yields `none`; a present entry
whose expiry has passed (`now > expiry`) is deleted and yields `none`;
otherwise the stored data is returned.  The returned pair is the read
result together with the updated map. -/
def cacheGet {α : Type} (c : APICache α) (k : String) (now : Nat) :
    Option α × APICache α :=
  match mapGetEntry c k with
  | none => (none, c)
  | some e => if e.expiry < now then (none, mapDelete c k) else (some e.data, c)

/-- Source `APICache.cleanup`: delete every entry whose expiry has
passed. -/
def cacheCleanup {α : Type} (c : APICache α) (now : Nat) : APICache α :=
  c.filter fun p => decide (now ≤ p.2.expiry)

/-!
The network call wrappers (source: `apiRequest`, `generateAnalysis` and
the specific wrappers in the API module).  A fetch either rejects with
an `AbortError` (the timeout fired and aborted it), rejects with some
other network error, or resolves with a response carrying an HTTP
status, status text and body.  The wrappers below map that outcome to
what the caller observes.
-/

/-- Possible outcomes of one `fetch`. -/
inductive FetchOutcome where
  | abortError
  | networkError (msg : String)
  | response (status : Nat) (statusText : String) (body : String)
deriving DecidableEq

/-- The failure conditions `apiRequest` reports: the distinct timeout
condition, the server-error condition carrying status code and text, and
passthrough of other network failures. -/
inductive APIError where
  | timeout
  | http (status : Nat) (statusText : String)
  | network (msg : String)
deriving DecidableEq

/-- The `Error` message text attached to each condition by the source. -/
def APIError.message : APIError → String
  | APIError.timeout => "Request timeout"
  | APIError.http st stext => "HTTP " ++ toString st ++ ": " ++ stext
  | APIError.network m => m

/-- JavaScript `Response.ok`: status in the 2xx range. -/
def responseOk (status : Nat) : Bool :=
  200 ≤ status && status ≤ 299

/-- The timeout `apiRequest` arms via `AbortController`/`setTimeout`:
the requested value, defaulting to 30000 milliseconds. -/
def apiRequestTimeoutMs (requested : Option Nat) : Nat :=
  requested.getD 30000

/-- Source `apiRequest` result routing (the POST paths used by the app;
the GET-only response cache is never consulted for them): an abort
becomes the distinct timeout condition, a non-2xx response becomes the
server-error condition carrying status and status text, other rejections
are rethrown, and a 2xx response yields its body. -/
def apiRequest (o : FetchOutcome) : Except APIError String :=
  match o with
  | FetchOutcome.abortError => Except.error APIError.timeout
  | FetchOutcome.networkError m => Except.error (APIError.network m)
  | FetchOutcome.response st stext body =>
    if responseOk st then Except.ok body else Except.error (APIError.http st stext)

/-- Source `generateAnalysis`: a plain `fetch` with no `AbortController`
and no timeout; a non-2xx response throws `Server error: ...`, but the
surrounding catch block replaces every failure with one generic
message. -/
def generateAnalysis (o : FetchOutcome) : Except String String :=
  match o with
  | FetchOutcome.response st _ body =>
    if responseOk st then Except.ok body
    else Except.error "Failed to generate analysis. Please try again."
  | _ => Except.error "Failed to generate analysis. Please try again."

/-- Static description of one outbound call: its endpoint and the abort
timeout armed for it, if any. -/
structure FetchCallConfig where
  endpoint : String
  timeoutMs : Option Nat
deriving DecidableEq

/-- A call made through `apiRequest` always arms an abort timeout. -/
def apiRequestCallConfig (endpoint : String) (requested : Option Nat) :
    FetchCallConfig :=
  { endpoint := endpoint, timeoutMs := some (apiRequestTimeoutMs requested) }

/-- The generate-analysis call: raw `fetch('/api/generate', ...)` with
no `AbortController` and no timeout. -/
def generateAnalysisCallConfig : FetchCallConfig :=
  { endpoint := "/api/generate", timeoutMs := none }

/-- The four network call paths of the optimized application module:
`generateAnalysis` plus the three follow-on wrappers, which go through
`apiRequest` with an explicit 15000 ms timeout. -/
def appCallConfigs : List FetchCallConfig :=
  [generateAnalysisCallConfig,
   apiRequestCallConfig "/api/ab-test" (some 15000),
   apiRequestCallConfig "/api/promo" (some 15000),
   apiRequestCallConfig "/api/faq" (some 15000)]

/-- Reference reading of the spec's wording for the assessment bound,
used for comparison with the code: terminate the capture only at a
newline followed by a top-level `##` header, i.e. not at a deeper
`###`/`####` line. -/
def specTopLevelStop (s : List Char) : Bool :=
  stopHH s && !((s.drop 3).head? == some '#')

/-- Assessment extraction as the spec's words describe it (text up to
the next top-level `##` header, trimmed), for comparison with
`parseAnalysisFromText`. -/
def specAssessmentTopLevel (text : String) : Option String :=
  (findHeader 2 "Overall Assessment".toList text.toList).map
    fun rest => String.mk (trimL (captureUntilP specTopLevelStop rest))

/-!
Helper lemmas.
-/

theorem recLoop_eq_filter (l : List Recommendation) :
    ∀ acc, recLoop acc l = acc ++ l.filter keepRec := by
  induction l with
  | nil => intro acc; simp [recLoop]
  | cons r rs ih =>
    intro acc
    by_cases h : keepRec r
    · simp [recLoop, h, ih, List.filter_cons]
    · simp [recLoop, h, ih, List.filter_cons]

theorem dropWhile_jsWs_idem (l : List Char) :
    (l.dropWhile jsWs).dropWhile jsWs = l.dropWhile jsWs := by
  induction l with
  | nil => rfl
  | cons c t ih =>
    by_cases h : jsWs c
    · simp [List.dropWhile_cons, h, ih]
    · simp [List.dropWhile_cons, h]

theorem trimL_dropWhile_jsWs (l : List Char) :
    trimL (l.dropWhile jsWs) = trimL l := by
  simp [trimL, dropWhile_jsWs_idem]

theorem captureUntil_stopHH_append (rest : List Char) (l : List Char)
    (h : '#' ∉ l) :
    captureUntilP stopHH (l ++ '\n' :: '#' :: '#' :: rest) = l := by
  induction l with
  | nil => simp [captureUntilP, stopHH, List.isPrefixOf]
  | cons c t ih =>
    have hc : '#' ∉ t := fun hm => h (List.mem_cons_of_mem _ hm)
    have hstop : stopHH (c :: (t ++ '\n' :: '#' :: '#' :: rest)) = false := by
      by_cases hcn : c = '\n'
      · subst hcn
        cases t with
        | nil => simp [stopHH, List.isPrefixOf]
        | cons d t' =>
          have hd : d ≠ '#' := by
            intro hd
            exact h (hd ▸ List.mem_cons_of_mem _ (List.mem_cons_self _ _))
          simp [stopHH, List.isPrefixOf, Ne.symm hd]
      · simp [stopHH, List.isPrefixOf, Ne.symm hcn]
    simp [captureUntilP, hstop, ih hc]

/-!
Claim theorems.  The larger concrete documents need a deeper kernel
recursion budget for `decide`.
-/

set_option maxRecDepth 8000

/-- C5: for every input string, `parseAnalysisFromText` returns a
`ListingAnalysis` (it is a total function, so no exception is possible),
and each absent section header leaves its field at the empty default. -/
theorem c5_parser_total_defaults (t : String) :
    (findHeader 2 "Overall Assessment".toList t.toList = none →
      (parseAnalysisFromText t).overall_assessment = "")
    ∧ (findHeader 2 "Suggested SEO Tags (13)".toList t.toList = none →
      (parseAnalysisFromText t).suggested_keywords = [])
    ∧ (findHeader 2 "Actionable Recommendations".toList t.toList = none →
      (parseAnalysisFromText t).recommendations = []) := by
  refine ⟨fun h => ?_, fun h => ?_, fun h => ?_⟩ <;>
    · simp only [parseAnalysisFromText]
      rw [h]

/-- Witness for C5 at the empty input: no section matches and all three
fields take their defaults. -/
theorem c5_parser_total_defaults_witness :
    (parseAnalysisFromText "").overall_assessment = ""
    ∧ (parseAnalysisFromText "").suggested_keywords = []
    ∧ (parseAnalysisFromText "").recommendations = [] := by
  obtain ⟨h1, h2, h3⟩ := c5_parser_total_defaults ""
  exact ⟨h1 (by decide), h2 (by decide), h3 (by decide)⟩

/-- C8: the tags header is matched as a fixed literal including the
`(13)` qualifier; whenever the literal match fails, the keyword list is
empty.  The concrete pair shows the qualifier is load-bearing: a `(12)`
label yields no keywords while the `(13)` label yields them. -/
theorem c8_literal_tags_header :
    (∀ t : String,
      findHeader 2 "Suggested SEO Tags (13)".toList t.toList = none →
        (parseAnalysisFromText t).suggested_keywords = [])
    ∧ (parseAnalysisFromText "## Suggested SEO Tags (12)\n- alpha\n- beta").suggested_keywords = []
    ∧ (parseAnalysisFromText "## Suggested SEO Tags (13)\n- alpha\n- beta").suggested_keywords
        = ["alpha", "beta"] := by
  refine ⟨fun t h => ?_, by decide, by decide⟩
  simp only [parseAnalysisFromText]
  rw [h]

/-- Witness for C8 at the differently-labelled document. -/
theorem c8_literal_tags_header_witness :
    (parseAnalysisFromText "## Suggested SEO Tags (12)\n- alpha\n- beta").suggested_keywords = [] :=
  c8_literal_tags_header.1 _ (by decide)

/-- C1 counterexample: on the claim's own keyword line the parser yields
the 20-character truncation "Handmade Wood Sign F", not the 22-character
string "Handmade Wood Sign For" the claim names. -/
theorem c1_counterexample :
    (parseAnalysisFromText "## Suggested SEO Tags (13)\n- Handmade Wood Sign For Wedding Welcome").suggested_keywords
        = ["Handmade Wood Sign F"]
    ∧ (parseAnalysisFromText "## Suggested SEO Tags (13)\n- Handmade Wood Sign For Wedding Welcome").suggested_keywords
        ≠ ["Handmade Wood Sign For"] :=
  ⟨by decide, by decide⟩

/-- C1 (amended): whenever the tags section matches, the keyword list is
the captured body run through the line pipeline (split on newlines,
strip one leading dash then trim, drop empty lines, truncate each
survivor to its first 20 characters, order preserved); on the claim's
keyword line this yields "Handmade Wood Sign F", the boundary inputs of
19, 20 and 21 characters passing through unchanged, unchanged, and cut
to 20. -/
theorem c1_keyword_truncation :
    (∀ (t : String) (rest : List Char),
      findHeader 2 "Suggested SEO Tags (13)".toList t.toList = some rest →
        (parseAnalysisFromText t).suggested_keywords
          = keywordPipeline (captureUntilP stopHH rest))
    ∧ (parseAnalysisFromText "## Suggested SEO Tags (13)\n- Handmade Wood Sign For Wedding Welcome\n- abcdefghijklmnopqrs\n- abcdefghijklmnopqrst\n- abcdefghijklmnopqrstu").suggested_keywords
        = ["Handmade Wood Sign F", "abcdefghijklmnopqrs",
           "abcdefghijklmnopqrst", "abcdefghijklmnopqrst"] := by
  refine ⟨fun t rest h => ?_, by decide⟩
  simp only [parseAnalysisFromText]
  rw [h]

/-- Witness for C1 applying the pipeline equation at a concrete
document. -/
theorem c1_keyword_truncation_witness :
    (parseAnalysisFromText "## Suggested SEO Tags (13)\n- alpha\n- beta").suggested_keywords
      = keywordPipeline (captureUntilP stopHH "- alpha\n- beta".toList) :=
  c1_keyword_truncation.1 _ _ (by decide)

/-- C10: the header regexes are substring-based, not line-anchored: a
deeper `#### Overall Assessment` header and a mid-line occurrence both
match, each producing a non-empty `overall_assessment`. -/
theorem c10_substring_header_matching :
    (parseAnalysisFromText "#### Overall Assessment\nGreat product").overall_assessment
        = "Great product"
    ∧ (parseAnalysisFromText "intro ## Overall Assessment ok").overall_assessment = "ok"
    ∧ ("Great product" : String) ≠ "" :=
  ⟨by decide, by decide, by decide⟩

/-- C6: whenever the recommendations section matches, the parsed
recommendations are exactly the candidate records of the reference
procedure (one candidate per element match, in order of appearance, each
body bounded by the next element match) filtered by the keep condition
(non-empty element, and non-empty suggestion or reasoning).  A block
with two well-formed element entries yields exactly those two records,
in source order, with no bleed between them. -/
theorem c6_recommendations_reference :
    (∀ (t : String) (rest : List Char),
      findHeader 2 "Actionable Recommendations".toList t.toList = some rest →
        (parseAnalysisFromText t).recommendations
          = (recCandidates (captureUntilP stopRecEnd rest)).filter keepRec)
    ∧ (parseAnalysisFromText "## Actionable Recommendations\n### Element: Title\n#### Suggestion: Use keywords\n#### Reasoning: SEO boost\n### Element: Description\n#### Suggestion: Add details\n#### Reasoning: Clarity").recommendations
        = [⟨"Title", "Use keywords", "SEO boost"⟩,
           ⟨"Description", "Add details", "Clarity"⟩] := by
  refine ⟨fun t rest h => ?_, by decide⟩
  simp only [parseAnalysisFromText]
  rw [h]
  simp [recLoop_eq_filter]

/-- Witness for C6 applying the reference equation at a concrete
document. -/
theorem c6_recommendations_reference_witness :
    (parseAnalysisFromText "## Actionable Recommendations\n### Element: T\n#### Suggestion: s\n#### Reasoning: r").recommendations
      = (recCandidates (captureUntilP stopRecEnd "### Element: T\n#### Suggestion: s\n#### Reasoning: r".toList)).filter keepRec :=
  c6_recommendations_reference.1 _ _ (by decide)

/-- C7 counterexample: in a document whose assessment section contains a
deeper `### Note` header before the next top-level `## Next` header, the
spec's reading (text up to the next top-level header) yields
"Good\n### Note\nMore" while the parser stops at the deeper header and
yields only "Good". -/
theorem c7_counterexample :
    specAssessmentTopLevel "## Overall Assessment\nGood\n### Note\nMore\n## Next"
        = some "Good\n### Note\nMore"
    ∧ (parseAnalysisFromText "## Overall Assessment\nGood\n### Note\nMore\n## Next").overall_assessment
        = "Good"
    ∧ ("Good" : String) ≠ "Good\n### Note\nMore" :=
  ⟨by decide, by decide, by decide⟩

/-- Helper: at a successful assessment header match, the parser's
assessment field is the trimmed capture bounded by the next newline
followed by two hashes. -/
theorem parse_assessment_of_match (t : String) (rest : List Char)
    (h : findHeader 2 "Overall Assessment".toList t.toList = some rest) :
    (parseAnalysisFromText t).overall_assessment
      = String.mk (trimL (captureUntilP stopHH rest)) := by
  simp only [parseAnalysisFromText]
  rw [h]

/-- C7 (amended): the assessment extraction stops at the next occurrence
of a newline followed by two hash characters, whatever follows them; a
deeper header line such as `### ...` or `#### ...` therefore also
terminates the extraction, because it too begins with `##` after a
newline.  For a document opening with the assessment header, a
hash-free body with visible content, and any `##`-initial continuation,
the field is exactly the trimmed body. -/
theorem c7_assessment_extraction (body rest : List Char)
    (hhash : '#' ∉ body) (hnws : body.dropWhile jsWs ≠ []) :
    (parseAnalysisFromText
        (String.mk ("## Overall Assessment\n".toList
          ++ body ++ '\n' :: '#' :: '#' :: rest))).overall_assessment
      = String.mk (trimL body) := by
  have hhashd : '#' ∉ body.dropWhile jsWs :=
    fun hm => hhash ((List.dropWhile_sublist jsWs).subset hm)
  have hstr : ("## Overall Assessment\n".toList : List Char)
      = '#' :: '#' :: ' ' :: ("Overall Assessment".toList ++ ['\n']) := by decide
  have hL : ("## Overall Assessment\n".toList
        ++ body ++ '\n' :: '#' :: '#' :: rest)
      = '#' :: '#' :: ' '
        :: ("Overall Assessment".toList
          ++ '\n' :: (body ++ '\n' :: '#' :: '#' :: rest)) := by
    rw [hstr]
    simp [List.append_assoc]
  have hlitcons : ("Overall Assessment".toList : List Char)
      = 'O' :: "verall Assessment".toList := by decide
  have hws1 : List.dropWhile jsWs
        ("Overall Assessment".toList ++ '\n' :: (body ++ '\n' :: '#' :: '#' :: rest))
      = "Overall Assessment".toList
          ++ '\n' :: (body ++ '\n' :: '#' :: '#' :: rest) := by
    rw [hlitcons, List.cons_append, List.dropWhile_cons_of_neg (by decide),
      ← List.cons_append, ← hlitcons]
  have hws2 : List.dropWhile jsWs ('\n' :: (body ++ '\n' :: '#' :: '#' :: rest))
      = body.dropWhile jsWs ++ '\n' :: '#' :: '#' :: rest := by
    rw [List.dropWhile_cons_of_pos (by decide)]
    rw [List.dropWhile_append]
    simp [List.isEmpty_iff, hnws]
  have hmatch : matchHeaderAt 2 "Overall Assessment".toList
      ('#' :: '#' :: ' '
        :: ("Overall Assessment".toList
          ++ '\n' :: (body ++ '\n' :: '#' :: '#' :: rest)))
      = some (body.dropWhile jsWs ++ '\n' :: '#' :: '#' :: rest) := by
    unfold matchHeaderAt
    rw [if_pos (by rfl)]
    simp only [List.drop_succ_cons, List.drop_zero]
    rw [List.dropWhile_cons_of_pos (by decide)]
    rw [hws1]
    rw [if_pos (List.isPrefixOf_iff_prefix.mpr (List.prefix_append _ _))]
    rw [List.drop_left]
    rw [hws2]
  have hfind : findHeader 2 "Overall Assessment".toList
      ("## Overall Assessment\n".toList ++ body ++ '\n' :: '#' :: '#' :: rest)
      = some (body.dropWhile jsWs ++ '\n' :: '#' :: '#' :: rest) := by
    rw [hL]
    rw [findHeader]
    rw [hmatch]
  rw [parse_assessment_of_match _ _ hfind]
  rw [captureUntil_stopHH_append rest _ hhashd]
  rw [trimL_dropWhile_jsWs]

/-- Witness for C7 at a concrete document whose assessment section is
terminated by the deeper header line made of the two appended hashes and
the "# Note" continuation (i.e. by "### Note"). -/
theorem c7_assessment_extraction_witness :
    (parseAnalysisFromText
        (String.mk ("## Overall Assessment\n".toList
          ++ "Good stuff".toList
          ++ '\n' :: '#' :: '#' :: "# Note\n## Next".toList))).overall_assessment
      = String.mk (trimL "Good stuff".toList) :=
  c7_assessment_extraction "Good stuff".toList "# Note\n## Next".toList
    (by decide) (by decide)

/-- Helper: `processQueue` never raises the in-flight count above the
ceiling when it starts at or below it. -/
theorem processQueue_active_le (s : RequestQueue)
    (h : s.active.length ≤ maxConcurrent) :
    (processQueue s).active.length ≤ maxConcurrent := by
  unfold processQueue
  split
  · exact h
  · next hlt =>
    cases hq : s.queue with
    | nil => exact h
    | cons t rest =>
      simp only [List.length_append, List.length_cons, List.length_nil]
      omega

/-- Helper: `processQueue` moves the queue head (if any) to the end of
the started log, preserving the concatenation of started log and queue,
the submission counter and the settled log. -/
theorem processQueue_obs (s : RequestQueue) :
    (processQueue s).started ++ (processQueue s).queue = s.started ++ s.queue
    ∧ (processQueue s).nextId = s.nextId
    ∧ (processQueue s).settled = s.settled := by
  obtain ⟨q, a, st, se, n⟩ := s
  cases q with
  | nil =>
    unfold processQueue
    split <;> exact ⟨rfl, rfl, rfl⟩
  | cons t rest =>
    unfold processQueue
    split
    · exact ⟨rfl, rfl, rfl⟩
    · exact ⟨by simp, rfl, rfl⟩

/-- Helper: one submission preserves both coordinator invariants. -/
theorem addTask_inv (s : RequestQueue)
    (hlen : s.active.length ≤ maxConcurrent)
    (hlog : s.started ++ s.queue = List.range s.nextId) :
    (addTask s).active.length ≤ maxConcurrent
    ∧ (addTask s).started ++ (addTask s).queue = List.range (addTask s).nextId := by
  unfold addTask
  constructor
  · exact processQueue_active_le _ hlen
  · have hobs := processQueue_obs
      { s with queue := s.queue ++ [s.nextId], nextId := s.nextId + 1 }
    rw [hobs.1, hobs.2.1]
    show s.started ++ (s.queue ++ [s.nextId]) = List.range (s.nextId + 1)
    rw [List.range_succ, ← hlog, List.append_assoc]

/-- Helper: one settlement preserves both coordinator invariants. -/
theorem completeTask_inv (s : RequestQueue) (t : Nat) (r : TaskResult)
    (hlen : s.active.length ≤ maxConcurrent)
    (hlog : s.started ++ s.queue = List.range s.nextId) :
    (completeTask s t r).active.length ≤ maxConcurrent
    ∧ (completeTask s t r).started ++ (completeTask s t r).queue
        = List.range (completeTask s t r).nextId := by
  unfold completeTask
  constructor
  · refine processQueue_active_le _ ?_
    show (s.active.erase t).length ≤ maxConcurrent
    exact le_trans (List.erase_sublist t s.active).length_le hlen
  · have hobs := processQueue_obs
      { s with active := s.active.erase t,
               settled := s.settled ++ [(t, runTask r)] }
    rw [hobs.1, hobs.2.1]
    exact hlog

/-- C3: in every reachable coordinator state at most `maxConcurrent`
(three) tasks are in flight, and the started log followed by the
pending queue always lists the submitted task ids in submission order
(so pending tasks begin execution in FIFO order); after five
submissions to the empty coordinator exactly the first three tasks are
in flight and tasks 3 and 4 are pending, and the completion of any
in-flight task (with either outcome) immediately starts task 3. -/
theorem c3_concurrency_fifo :
    (∀ s : RequestQueue, QReachable s →
      s.active.length ≤ maxConcurrent
      ∧ s.started ++ s.queue = List.range s.nextId)
    ∧ queueAfterFiveAdds.active = [0, 1, 2]
    ∧ queueAfterFiveAdds.started = [0, 1, 2]
    ∧ queueAfterFiveAdds.queue = [3, 4]
    ∧ (∀ (t : Nat) (r : TaskResult), t ∈ queueAfterFiveAdds.active →
        (completeTask queueAfterFiveAdds t r).started = [0, 1, 2, 3]) := by
  refine ⟨?_, by decide, by decide, by decide, ?_⟩
  · intro s hs
    induction hs with
    | init => exact ⟨by decide, by decide⟩
    | @step sPrev sNext hprev hstep ih =>
      obtain ⟨ihlen, ihlog⟩ := ih
      cases hstep with
      | add => exact addTask_inv sPrev ihlen ihlog
      | complete t r hmem => exact completeTask_inv sPrev t r ihlen ihlog
  · intro t r ht
    fin_cases ht <;> rfl

/-- Witness for C3: the five-submission state is reachable, satisfies
the invariants, and completing task 0 with a failure starts task 3. -/
theorem c3_concurrency_fifo_witness :
    queueAfterFiveAdds.active.length ≤ maxConcurrent
    ∧ queueAfterFiveAdds.started ++ queueAfterFiveAdds.queue
        = List.range queueAfterFiveAdds.nextId
    ∧ (completeTask queueAfterFiveAdds 0 (Except.error "boom")).started
        = [0, 1, 2, 3] := by
  have h0 : QReachable initQueue := QReachable.init
  have h1 := QReachable.step h0 (QStep.add initQueue)
  have h2 := QReachable.step h1 (QStep.add _)
  have h3 := QReachable.step h2 (QStep.add _)
  have h4 := QReachable.step h3 (QStep.add _)
  have h5 := QReachable.step h4 (QStep.add _)
  obtain ⟨hinv, _, _, _, hnext⟩ := c3_concurrency_fifo
  exact ⟨(hinv _ h5).1, (hinv _ h5).2, hnext 0 _ (by decide)⟩

/-- C9: the wrapper pushed by `add` delivers exactly the task's own
outcome — the value it fulfils with or the reason it rejects with — and
settlement appends precisely that outcome to the settled log, never
wrapping, replacing or swallowing it. -/
theorem c9_outcome_passthrough :
    (∀ r : TaskResult, runTask r = r)
    ∧ (∀ (s : RequestQueue) (t : Nat) (r : TaskResult), t ∈ s.active →
        (completeTask s t r).settled = s.settled ++ [(t, r)]) := by
  have hrun : ∀ r : TaskResult, runTask r = r := by
    intro r
    cases r <;> rfl
  refine ⟨hrun, fun s t r _ => ?_⟩
  have hobs := processQueue_obs
    { s with active := s.active.erase t,
             settled := s.settled ++ [(t, runTask r)] }
  rw [completeTask, hobs.2.2, hrun]

/-- Witness for C9: a success value and a concrete failing completion
pass through unchanged. -/
theorem c9_outcome_passthrough_witness :
    runTask (Except.ok "value") = Except.ok "value"
    ∧ (completeTask queueAfterFiveAdds 2 (Except.error "boom")).settled
        = queueAfterFiveAdds.settled ++ [(2, Except.error "boom")] :=
  ⟨c9_outcome_passthrough.1 _,
   c9_outcome_passthrough.2 queueAfterFiveAdds 2 _ (by decide)⟩

/-- Helper: reading the key just written returns the new entry. -/
theorem mapGetEntry_mapSet {β : Type} (c : List (String × β)) (k : String) (v : β) :
    mapGetEntry (mapSet c k v) k = some v := by
  induction c with
  | nil => simp [mapSet, mapGetEntry]
  | cons p rest ih =>
    obtain ⟨k', v'⟩ := p
    by_cases h : k' = k
    · simp [mapSet, mapGetEntry, h]
    · simp [mapSet, mapGetEntry, h, ih]

/-- Helper: a key outside the map reads as absent. -/
theorem mapGetEntry_eq_none_of_not_mem {β : Type} (c : List (String × β))
    (k : String) (h : k ∉ c.map Prod.fst) : mapGetEntry c k = none := by
  induction c with
  | nil => rfl
  | cons p rest ih =>
    obtain ⟨k', v'⟩ := p
    simp only [List.map_cons, List.mem_cons] at h
    push_neg at h
    simp [mapGetEntry, Ne.symm h.1, ih h.2]

/-- Helper: with unique keys, a deleted key reads as absent. -/
theorem mapGetEntry_mapDelete {β : Type} (c : List (String × β)) (k : String)
    (hnd : (c.map Prod.fst).Nodup) : mapGetEntry (mapDelete c k) k = none := by
  induction c with
  | nil => rfl
  | cons p rest ih =>
    obtain ⟨k', v'⟩ := p
    simp only [List.map_cons, List.nodup_cons] at hnd
    by_cases h : k' = k
    · subst h
      simp only [mapDelete, if_pos rfl]
      exact mapGetEntry_eq_none_of_not_mem rest k' hnd.1
    · simp [mapDelete, mapGetEntry, h, ih hnd.2]

/-- Helper: a key present after `mapSet` was present before or is the
key just set. -/
theorem mem_map_fst_mapSet {β : Type} (c : List (String × β)) (k a : String)
    (v : β) (h : a ∈ (mapSet c k v).map Prod.fst) :
    a ∈ c.map Prod.fst ∨ a = k := by
  induction c with
  | nil =>
    simp only [mapSet, List.map_cons, List.map_nil, List.mem_singleton] at h
    exact Or.inr h
  | cons p rest ih =>
    obtain ⟨k', v'⟩ := p
    by_cases hk : k' = k
    · subst hk
      exact Or.inl (by simpa [mapSet] using h)
    · simp only [mapSet, if_neg hk, List.map_cons, List.mem_cons] at h
      rcases h with h | h
      · exact Or.inl (by simp [h])
      · rcases ih h with h1 | h1
        · exact Or.inl (by simp [h1])
        · exact Or.inr h1

/-- Helper: `mapSet` preserves key uniqueness. -/
theorem nodup_keys_mapSet {β : Type} (c : List (String × β)) (k : String)
    (v : β) (hnd : (c.map Prod.fst).Nodup) :
    ((mapSet c k v).map Prod.fst).Nodup := by
  induction c with
  | nil => simp [mapSet]
  | cons p rest ih =>
    obtain ⟨k', v'⟩ := p
    simp only [List.map_cons, List.nodup_cons] at hnd
    by_cases hk : k' = k
    · subst hk
      have hset : mapSet ((k', v') :: rest) k' v = (k', v) :: rest := by
        simp [mapSet]
      rw [hset]
      simp only [List.map_cons, List.nodup_cons]
      exact ⟨hnd.1, hnd.2⟩
    · simp only [mapSet, if_neg hk, List.map_cons, List.nodup_cons]
      refine ⟨fun hmem => ?_, ih hnd.2⟩
      rcases mem_map_fst_mapSet rest k k' v hmem with h1 | h1
      · exact hnd.1 h1
      · exact hk h1

/-- C4: reading a freshly set key yields the stored value exactly while
`now` has not passed `t0 + ttl`, and absence afterwards, independently of
any sweep; with unique keys the expired read leaves the key absent from
the returned map (the entry is removed); `cleanup` keeps exactly the
entries whose expiry has not passed; and concretely a value set at time
0 with a 1000 ms time-to-live is returned at time 500 and absent at time
1500. -/
theorem c4_cache_expiry :
    (∀ (α : Type) (c : APICache α) (k : String) (v : α) (ttl t0 now : Nat),
      (cacheGet (cacheSet c k v ttl t0) k now).1
        = if t0 + ttl < now then none else some v)
    ∧ (∀ (α : Type) (c : APICache α) (k : String) (v : α) (ttl t0 now : Nat),
      ((c.map Prod.fst).Nodup → t0 + ttl < now →
        mapGetEntry (cacheGet (cacheSet c k v ttl t0) k now).2 k = none))
    ∧ (∀ (α : Type) (c : APICache α) (now : Nat) (k : String) (e : CacheEntry α),
      ((k, e) ∈ cacheCleanup c now ↔ (k, e) ∈ c ∧ now ≤ e.expiry))
    ∧ (∀ (α : Type) (v : α),
      (cacheGet (cacheSet ([] : APICache α) "k" v 1000 0) "k" 500).1 = some v
      ∧ (cacheGet (cacheSet ([] : APICache α) "k" v 1000 0) "k" 1500).1 = none) := by
  have hget : ∀ (α : Type) (c : APICache α) (k : String) (v : α) (ttl t0 now : Nat),
      (cacheGet (cacheSet c k v ttl t0) k now).1
        = if t0 + ttl < now then none else some v := by
    intro α c k v ttl t0 now
    unfold cacheGet cacheSet
    rw [mapGetEntry_mapSet]
    by_cases h : t0 + ttl < now
    · simp [h]
    · simp [h]
  refine ⟨hget, ?_, ?_, ?_⟩
  · intro α c k v ttl t0 now hnd hexp
    unfold cacheGet cacheSet
    rw [mapGetEntry_mapSet]
    simp only [hexp, if_true]
    exact mapGetEntry_mapDelete _ k (nodup_keys_mapSet c k _ hnd)
  · intro α c now k e
    simp [cacheCleanup, List.mem_filter]
  · intro α v
    constructor
    · rw [hget]
      norm_num
    · rw [hget]
      norm_num

/-- Witness for C4: concrete reads before and after expiry, and an
expired read on a concrete unique-keyed cache leaving the key absent. -/
theorem c4_cache_expiry_witness :
    (cacheGet (cacheSet ([] : APICache Nat) "k" 7 1000 0) "k" 500).1 = some 7
    ∧ (cacheGet (cacheSet ([] : APICache Nat) "k" 7 1000 0) "k" 1500).1 = none
    ∧ mapGetEntry
        (cacheGet (cacheSet ([] : APICache Nat) "k" 7 1000 0) "k" 1500).2 "k"
      = none := by
  obtain ⟨hget, hdel, hclean, hconc⟩ := c4_cache_expiry
  exact ⟨(hconc Nat 7).1, (hconc Nat 7).2,
    hdel Nat [] "k" 7 1000 0 1500 (by decide) (by norm_num)⟩

/-- C2 counterexample: the generate-analysis call is one of the
application's call paths and carries no timeout, so it is false that
every network call issued by the application carries one. -/
theorem c2_counterexample :
    generateAnalysisCallConfig ∈ appCallConfigs
    ∧ generateAnalysisCallConfig.timeoutMs = none
    ∧ ¬ (∀ c ∈ appCallConfigs, c.timeoutMs ≠ none) := by
  refine ⟨by decide, rfl, fun h => ?_⟩
  exact h generateAnalysisCallConfig (by decide) rfl

/-- C2 (amended): calls made through the `apiRequest` wrapper arm an
abort timeout (30000 ms when none is requested); there an abort is
reported as the distinct timeout condition, other network failures pass
through as the distinct network condition, and a non-2xx response is
reported as the distinct server-error condition carrying the status code
and text — the three conditions being pairwise distinct.  The
generate-analysis call, by contrast, is issued with a plain fetch
carrying no timeout, and every failure of it is collapsed into the one
generic message "Failed to generate analysis. Please try again.". -/
theorem c2_error_reporting :
    apiRequestTimeoutMs none = 30000
    ∧ (∀ ep : String, (apiRequestCallConfig ep none).timeoutMs = some 30000)
    ∧ apiRequest FetchOutcome.abortError = Except.error APIError.timeout
    ∧ (∀ m : String,
        apiRequest (FetchOutcome.networkError m) = Except.error (APIError.network m))
    ∧ (∀ (st : Nat) (stext body : String), responseOk st = false →
        apiRequest (FetchOutcome.response st stext body)
          = Except.error (APIError.http st stext))
    ∧ (∀ (st : Nat) (stext m : String),
        APIError.timeout ≠ APIError.http st stext
        ∧ APIError.timeout ≠ APIError.network m
        ∧ APIError.http st stext ≠ APIError.network m)
    ∧ generateAnalysisCallConfig.timeoutMs = none
    ∧ (∀ (o : FetchOutcome) (e : String), generateAnalysis o = Except.error e →
        e = "Failed to generate analysis. Please try again.") := by
  refine ⟨rfl, fun ep => rfl, rfl, fun m => rfl, fun st stext body h => ?_,
    fun st stext m => ⟨by simp, by simp, by simp⟩, rfl, fun o e h => ?_⟩
  · simp [apiRequest, h]
  · cases o with
    | abortError =>
      have h2 : ("Failed to generate analysis. Please try again." : String) = e := by
        simpa [generateAnalysis] using h
      exact h2.symm
    | networkError m =>
      have h2 : ("Failed to generate analysis. Please try again." : String) = e := by
        simpa [generateAnalysis] using h
      exact h2.symm
    | response st stext body =>
      by_cases hok : responseOk st
      · simp [generateAnalysis, hok] at h
      · have h2 : ("Failed to generate analysis. Please try again." : String) = e := by
          simpa [generateAnalysis, hok] using h
        exact h2.symm

/-- Witness for C2 at a concrete 500 response and a concrete network
failure of the generate-analysis call. -/
theorem c2_error_reporting_witness :
    apiRequest (FetchOutcome.response 500 "Internal Server Error" "")
        = Except.error (APIError.http 500 "Internal Server Error")
    ∧ ("Failed to generate analysis. Please try again." : String)
        = "Failed to generate analysis. Please try again." :=
  ⟨c2_error_reporting.2.2.2.2.1 500 "Internal Server Error" "" (by decide),
   c2_error_reporting.2.2.2.2.2.2.2 (FetchOutcome.networkError "connection reset") _ rfl⟩
